import Mathlib

/-!
Verification development for the langtool-trading indicator & screening
pipeline.  The Python source (pandas/float) is shallowly embedded over ℚ:
float arithmetic is modelled as exact rational arithmetic, pandas NaN as
`Option.none`, and the float special values produced by division by zero
(`inf` / `NaN`) are translated into the explicit case splits noted at each
definition.  History lists are kept in the source's order: newest bar
first; pandas "last row" values of a rolling window therefore correspond
to prefixes (`List.take`) of the newest-first list.
-/

/-- Python `round(x, 2)` modelled over ℚ (ties differ from float banker's
rounding only on exact half-cent values, which no claim depends on). -/
def round2 (x : ℚ) : ℚ := (round (x * 100) : ℤ) / 100

/-- Python `round(x, 0)` as used for the volume moving averages. -/
def round0 (x : ℚ) : ℚ := (round x : ℤ)

/-- Python `round(x, 3)` as used for the MACD components. -/
def round3 (x : ℚ) : ℚ := (round (x * 1000) : ℤ) / 1000

/-- One OHLCV record (`history_data` row) after `pd.to_numeric` coercion;
only the fields the indicator engines read are modelled. -/
structure Bar where
  close : ℚ
  volume : ℚ
  high : ℚ
  low : ℚ
deriving DecidableEq, Repr

/-- Close prices, newest first (the order `get_stock_history` delivers). -/
def closesNF (hist : List Bar) : List ℚ := hist.map Bar.close

/-- Volumes, newest first. -/
def volumesNF (hist : List Bar) : List ℚ := hist.map Bar.volume

/-- Highs, newest first. -/
def highsNF (hist : List Bar) : List ℚ := hist.map Bar.high

/-- Lows, newest first. -/
def lowsNF (hist : List Bar) : List ℚ := hist.map Bar.low

/-- `df[col].rolling(window=w).mean()` evaluated at the final row: the
mean of the last `w` chronological values, i.e. of the first `w` entries
of the newest-first list; `none` models the NaN produced when fewer than
`w` values exist. -/
def meanTake (w : ℕ) (xs : List ℚ) : Option ℚ :=
  if w ≤ xs.length then some ((xs.take w).sum / w) else none

/-- The `gain` column `(delta.where(delta > 0, 0))` of the RSI block, as a
newest-first list.  `delta = close.diff()` has NaN at the chronologically
first bar, and `where` maps that NaN to 0 (NaN > 0 is false), so the
column is total: entry `i` (newest first) is `max (c_i - c_(i+1)) 0`, and
the chronologically first entry is 0. -/
def gainsNF (cs : List ℚ) : List ℚ :=
  if cs.isEmpty then [] else (List.zipWith (fun a b => max (a - b) 0) cs cs.tail) ++ [0]

/-- The `loss` column `(-delta.where(delta < 0, 0))`, same conventions. -/
def lossesNF (cs : List ℚ) : List ℚ :=
  if cs.isEmpty then [] else (List.zipWith (fun a b => max (b - a) 0) cs cs.tail) ++ [0]

/-- 14-bar average gain at the final row. -/
def gainMean14 (cs : List ℚ) : Option ℚ := meanTake 14 (gainsNF cs)

/-- 14-bar average loss at the final row. -/
def lossMean14 (cs : List ℚ) : Option ℚ := meanTake 14 (lossesNF cs)

/-- The `rsi` column `100 - 100/(1 + gain/loss)` at the final row, with
the float semantics of the zero-loss cases made explicit: `g/0 = inf` for
`g > 0` gives `100 - 100/inf = 100`; `0/0 = NaN` propagates to NaN
(modelled `none`, which the snapshot later defaults to 50). -/
def rsiLast (cs : List ℚ) : Option ℚ :=
  match gainMean14 cs, lossMean14 cs with
  | some g, some l =>
      if l = 0 then (if g = 0 then none else some 100)
      else some (100 - 100 / (1 + g / l))
  | _, _ => none

/-- `ewm(..., adjust=False).mean()` continuation: given the previous
smoothed value `s`, emit the smoothed series of the remaining
chronological values with smoothing factor `a`. -/
def emaFrom (a : ℚ) (s : ℚ) : List ℚ → List ℚ
  | [] => []
  | x :: xs =>
      let y := (1 - a) * s + a * x
      y :: emaFrom a y xs

/-- `ewm(..., adjust=False).mean()` on a chronological series: seeded from
the first value, then the recursion `y_t = (1-a)*y_(t-1) + a*x_t`. -/
def ema (a : ℚ) : List ℚ → List ℚ
  | [] => []
  | x :: xs => x :: emaFrom a x xs

/-- The `macd` column (chronological): EMA(span 12, a = 2/13) minus
EMA(span 26, a = 2/27). -/
def difList (cl : List ℚ) : List ℚ :=
  List.zipWith (fun a b => a - b) (ema (2/13) cl) (ema (2/27) cl)

/-- The `signal` column: EMA(span 9, a = 1/5) of the MACD column. -/
def deaList (cl : List ℚ) : List ℚ := ema (1/5) (difList cl)

/-- The `hist` column: MACD minus signal. -/
def macdHistList (cl : List ℚ) : List ℚ :=
  List.zipWith (fun a b => a - b) (difList cl) (deaList cl)

/-- The `rsv` column on chronological highs/lows/closes: position `i`
holds `(close - 9-bar low)/(9-bar high - 9-bar low) * 100`; `none` models
the NaN of an incomplete window and the NaN/inf of a zero high-low range
(the division by zero the spec's edge-case note covers). -/
def rsvList (hs ls cs : List ℚ) : List (Option ℚ) :=
  (List.range cs.length).map fun i =>
    if 8 ≤ i then
      match ((ls.take (i+1)).drop (i-8)).min?, ((hs.take (i+1)).drop (i-8)).max?, cs[i]? with
      | some lmin, some hmax, some c =>
          if hmax - lmin = 0 then none else some ((c - lmin) / (hmax - lmin) * 100)
      | _, _, _ => none
    else none

/-- `ewm(com=2, adjust=False).mean()` over a series with missing values:
output is `none` at a missing input, the running mean starts at the first
present value and then follows `y = (2/3)*y' + (1/3)*x`.  This matches
pandas exactly when the present values are contiguous (the regime of every
claim; pandas re-weights across interior gaps, which no claim exercises). -/
def ewmNa (a : ℚ) : Option ℚ → List (Option ℚ) → List (Option ℚ)
  | _, [] => []
  | st, none :: xs => none :: ewmNa a st xs
  | none, some x :: xs => some x :: ewmNa a (some x) xs
  | some s, some x :: xs =>
      let y := (1 - a) * s + a * x
      some y :: ewmNa a (some y) xs

/-- The `k` column: com-2 smoothing of RSV. -/
def kListOf (hs ls cs : List ℚ) : List (Option ℚ) := ewmNa (1/3) none (rsvList hs ls cs)

/-- The `d` column: com-2 smoothing of K. -/
def dListOf (hs ls cs : List ℚ) : List (Option ℚ) := ewmNa (1/3) none (kListOf hs ls cs)

/-- `3*k - 2*d` on one pair of K/D entries, NaN-propagating. -/
def jElem (x y : Option ℚ) : Option ℚ :=
  match x, y with
  | some k, some d => some (3 * k - 2 * d)
  | _, _ => none

/-- Pointwise `3*k - 2*d` over two columns with missing values. -/
def jCombine (ks ds : List (Option ℚ)) : List (Option ℚ) :=
  List.zipWith jElem ks ds

/-- The `j` column `3*df.k - 2*df.d`. -/
def jListOf (hs ls cs : List ℚ) : List (Option ℚ) :=
  jCombine (kListOf hs ls cs) (dListOf hs ls cs)

/-- The latest close `latest['close']` (head of the newest-first list). -/
def latestClose (hist : List Bar) : ℚ := (closesNF hist).headD 0

/-- The latest volume `latest['volume']`. -/
def latestVolume (hist : List Bar) : ℚ := (volumesNF hist).headD 0

/-- The dictionary `Analysis._calculate_indicators` returns for a series
of at least 5 bars, with every per-field NaN default already applied as in
the source (`0` for price/volume fields, `50` for RSI, `None` for the
boolean flags).  The Bollinger fields are not modelled: their value needs
an irrational square root and no claim mentions them; the empty-snapshot
claim is settled at the `Option` level of `calculate_indicators`. -/
structure Indicators where
  ma5 : ℚ
  ma10 : ℚ
  ma20 : ℚ
  ma60 : ℚ
  vma5 : ℚ
  vma10 : ℚ
  rsi : ℚ
  macd : ℚ
  macd_signal : ℚ
  macd_hist : ℚ
  kdj_k : ℚ
  kdj_d : ℚ
  kdj_j : ℚ
  is_above_ma5 : Option Bool
  is_above_ma10 : Option Bool
  is_above_ma20 : Option Bool
  is_above_ma60 : Option Bool
  volumeRate : ℚ
deriving DecidableEq, Repr

/-- `Analysis._calculate_indicators`: `{}` (here `none`) for fewer than 5
bars, otherwise the populated snapshot.  `volumeRate` carries the source
key `volume_ratio`. -/
def calculate_indicators (hist : List Bar) : Option Indicators :=
  if hist.length < 5 then none else
  let cs := closesNF hist
  let vs := volumesNF hist
  let chron := cs.reverse
  let hsC := (highsNF hist).reverse
  let lsC := (lowsNF hist).reverse
  let c0 := latestClose hist
  some {
    ma5 := (meanTake 5 cs).elim 0 round2
    ma10 := (meanTake 10 cs).elim 0 round2
    ma20 := (meanTake 20 cs).elim 0 round2
    ma60 := (meanTake 60 cs).elim 0 round2
    vma5 := (meanTake 5 vs).elim 0 round0
    vma10 := (meanTake 10 vs).elim 0 round0
    rsi := (rsiLast cs).elim 50 round2
    macd := ((difList chron).getLast?).elim 0 round3
    macd_signal := ((deaList chron).getLast?).elim 0 round3
    macd_hist := ((macdHistList chron).getLast?).elim 0 round3
    kdj_k := (((kListOf hsC lsC chron).getLast?).bind id).elim 0 round2
    kdj_d := (((dListOf hsC lsC chron).getLast?).bind id).elim 0 round2
    kdj_j := (((jListOf hsC lsC chron).getLast?).bind id).elim 0 round2
    is_above_ma5 := (meanTake 5 cs).map fun m => decide (c0 > m)
    is_above_ma10 := (meanTake 10 cs).map fun m => decide (c0 > m)
    is_above_ma20 := (meanTake 20 cs).map fun m => decide (c0 > m)
    is_above_ma60 := (meanTake 60 cs).map fun m => decide (c0 > m)
    volumeRate :=
      match meanTake 5 vs with
      | some v => if 0 < v then round2 (latestVolume hist / v) else 0
      | none => 0 }

/-- Trend label `"向上" if change > 0 else "向下" if change < 0 else
"走平"`, with the pandas NaN (`none`) falling through both comparisons to
the flat label exactly as the float NaN does. -/
def trendLabel (o : Option ℚ) : String :=
  match o with
  | some d => if 0 < d then "向上" else if d < 0 then "向下" else "走平"
  | none => "走平"

/-- `df.ma60.diff(3)` at the final row: the 60-bar mean now minus the
60-bar mean three bars earlier (newest-first list dropped by 3); `none`
when either window is incomplete. -/
def ma60Change (cs : List ℚ) : Option ℚ :=
  match meanTake 60 cs, meanTake 60 (cs.drop 3) with
  | some cur, some prev => some (cur - prev)
  | _, _ => none

/-- `df.ma25.diff(3)` at the final row. -/
def ma25Change (cs : List ℚ) : Option ℚ :=
  match meanTake 25 cs, meanTake 25 (cs.drop 3) with
  | some cur, some prev => some (cur - prev)
  | _, _ => none

/-- The dictionary `Analysis2560._calculate_indicators` returns for a
series of at least 60 bars.  `volumeRate` carries the source key
`volume_ratio`. -/
structure Ind2560 where
  ma25 : ℚ
  ma60 : ℚ
  ma25_trend : String
  ma60_trend : String
  is_above_ma25 : Option Bool
  is_above_ma60 : Option Bool
  vma5 : ℚ
  volumeRate : ℚ
  current_price : ℚ
deriving DecidableEq, Repr

/-- `Analysis2560._calculate_indicators`: `{}` (here `none`) for fewer
than 60 bars, otherwise the populated snapshot. -/
def calculate_indicators_2560 (hist : List Bar) : Option Ind2560 :=
  if hist.length < 60 then none else
  let cs := closesNF hist
  let vs := volumesNF hist
  let c0 := latestClose hist
  some {
    ma25 := (meanTake 25 cs).elim 0 round2
    ma60 := (meanTake 60 cs).elim 0 round2
    ma25_trend := trendLabel (ma25Change cs)
    ma60_trend := trendLabel (ma60Change cs)
    is_above_ma25 := (meanTake 25 cs).map fun m => decide (c0 > m)
    is_above_ma60 := (meanTake 60 cs).map fun m => decide (c0 > m)
    vma5 := (meanTake 5 vs).elim 0 round0
    volumeRate :=
      match meanTake 5 vs with
      | some v => if 0 < v then round2 (latestVolume hist / v) else 0
      | none => 0
    current_price := round2 c0 }

/-- The strong-bear test of `Analysis._is_promising`: strict bearish
alignment `ma5 < ma20 < ma60`, price not above MA5 (`not
indicators.get('is_above_ma5')`, where the Python `None` flag is falsy),
and a negative MACD histogram. -/
def shortBear (s : Indicators) : Bool :=
  (decide (s.ma5 < s.ma20) && decide (s.ma20 < s.ma60))
    && !(s.is_above_ma5.getD false) && decide (s.macd_hist < 0)

/-- `Analysis._is_promising(indicators, factor_158)`: `False` on an empty
snapshot, `False` when the factor is below `-0.5`, `False` on the
strong-bear pattern, otherwise `True`. -/
def is_promising (ind : Option Indicators) (factor_158 : ℚ) : Bool :=
  match ind with
  | none => false
  | some s =>
      if factor_158 < -(1/2) then false
      else if shortBear s then false
      else true

/-- The indicator dictionary of `AnalysisFlow._calculate_indicators`
(only the fields its gate reads are modelled). -/
structure IndFlow where
  ma5 : ℚ
  ma20 : ℚ
  ma60 : ℚ
  macd_hist : ℚ
  current_price : ℚ
deriving DecidableEq, Repr

/-- The flow variant `_is_promising(indicators, alpha158)` of
`analysisflow.py`: same factor rule, bear test phrased with
`curr < ma5` instead of the boolean flag. -/
def is_promising_flow (ind : Option IndFlow) (alpha158 : ℚ) : Bool :=
  match ind with
  | none => false
  | some s =>
      if alpha158 < -(1/2) then false
      else if (decide (s.ma5 < s.ma20) && decide (s.ma20 < s.ma60))
          && decide (s.current_price < s.ma5) && decide (s.macd_hist < 0) then false
      else true

/-- `Analysis2560._is_promising(indicators)`: reject on a falling MA60
trend, on price more than 10% below a positive MA60, or on both trends
falling; otherwise accept. -/
def is_promising_2560 (ind : Option Ind2560) : Bool :=
  match ind with
  | none => false
  | some s =>
      if s.ma60_trend = "向下" then false
      else if 0 < s.ma60 ∧ s.current_price < s.ma60 * (9/10) then false
      else if s.ma25_trend = "向下" ∧ s.ma60_trend = "向下" then false
      else true

/-- The subset of the per-symbol output dictionary the claims read;
records produced by the gate default, by the external analysis
collaborator, and by the 2560 variant all share this shape. -/
structure AnalysisRecord where
  stock_code : String
  stock_name : String
  recommendation : String
  trend : String
  thought_process : String
  action : String
  confidence : ℚ
  alpha158 : ℚ
deriving DecidableEq, Repr

/-- The deterministic default record `Analysis.analysis_stock` builds when
the gate rejects (timestamp and current-price fields are real-time inputs
outside the embedding). -/
def gateDefaultRecord (code name : String) (factor_158 : ℚ) : AnalysisRecord :=
  { stock_code := code
    stock_name := name
    recommendation := "观望"
    trend := "下跌/空头"
    thought_process := "预筛选机制拦截：指标显示强空头排列或 Alpha158 因子评分极低，暂无参与价值。"
    action := "保持观望，等待趋势反转或缩量筑底。"
    confidence := 1/10
    alpha158 := factor_158 }

/-- The deterministic default record `Analysis2560.run` builds when its
gate rejects; the explanatory note interpolates the MA60 trend label and
the price position as the source f-string does. -/
def gateDefaultRecord2560 (code name : String) (s : Ind2560) : AnalysisRecord :=
  { stock_code := code
    stock_name := name
    recommendation := "观望"
    trend := ""
    thought_process :=
      "预筛选排除：MA60趋势为 " ++ s.ma60_trend ++ "，价格相对于MA60位置为 "
        ++ (if s.is_above_ma60.getD false then "线上" else "线下") ++ "。"
    action := "不符合2560战法基础形态，建议继续观察。"
    confidence := 1/10
    alpha158 := 0 }

/-- The per-symbol environment `analysis_stock` reads: the database rows,
the configuration flag, the factor map entry, and the external LLM
collaborator's reply (`none` models the exception path of the
`try`/`except`). -/
structure PipelineEnv where
  code : String
  stockInfo : Option String
  history : List Bar
  factorEnabled : Bool
  factor158 : ℚ
  llmResult : Option AnalysisRecord
deriving Repr

/-- The factor value the pipeline actually uses: `0.0` unless
`settings.enable_factor_analysis` is set. -/
def resolvedFactor (env : PipelineEnv) : ℚ :=
  if env.factorEnabled then env.factor158 else 0

/-- `Analysis.analysis_stock` as a function of its environment, returning
the produced record (`none` = the symbol yields nothing: unknown code or
collaborator failure) paired with whether the expensive LLM collaborator
was invoked. -/
def analysis_stock (env : PipelineEnv) : Option AnalysisRecord × Bool :=
  match env.stockInfo with
  | none => (none, false)
  | some name =>
      let ind := calculate_indicators env.history
      let f := resolvedFactor env
      if is_promising ind f then
        match env.llmResult with
        | some r =>
            (some { r with stock_code := env.code, stock_name := name, alpha158 := f }, true)
        | none => (none, true)
      else
        (some (gateDefaultRecord env.code name f), false)

/-- `Analysis2560.run` as a function of its environment: unknown code or
an empty indicator dictionary yields nothing before the gate; a gate
reject yields the deterministic default without the collaborator. -/
def run2560 (env : PipelineEnv) : Option AnalysisRecord × Bool :=
  match env.stockInfo with
  | none => (none, false)
  | some name =>
      match calculate_indicators_2560 env.history with
      | none => (none, false)
      | some s =>
          if is_promising_2560 (some s) then
            match env.llmResult with
            | some r =>
                (some { r with stock_code := env.code, stock_name := name }, true)
            | none => (none, true)
          else
            (some (gateDefaultRecord2560 env.code name s), false)

/-- The result-collection loop of `batch_analysis`: each completed future
either delivers a record or raised (`none`); raised symbols are logged
and skipped, delivered records are appended in completion order. -/
def batchCollect (outcomes : List (Option AnalysisRecord)) : List AnalysisRecord :=
  outcomes.filterMap id

/-- The buy filter `'买入' in str(recommendation)`: substring containment
over the character list. -/
def hasInfixChars (tag : List Char) : List Char → Bool
  | [] => tag.isEmpty
  | c :: rest => tag.isPrefixOf (c :: rest) || hasInfixChars tag rest

/-- A record qualifies for the selected output iff its recommendation
contains the buy tag, regardless of confidence. -/
def isBuyRecord (r : AnalysisRecord) : Bool :=
  hasInfixChars "买入".data r.recommendation.data

/-- `valid_results.sort(key=confidence, reverse=True)`: a stable
descending sort by confidence (Python's Timsort keeps ties in original
order; descending with `reverse=True` preserves stability). -/
def sortByConfidence (l : List AnalysisRecord) : List AnalysisRecord :=
  l.mergeSort fun a b => decide (b.confidence ≤ a.confidence)

/-- `buy_stocks`: the records of the sorted result set whose
recommendation carries the buy tag. -/
def buySelection (l : List AnalysisRecord) : List AnalysisRecord :=
  (sortByConfidence l).filter isBuyRecord

/-- One call of `_save_to_excel`: destination name, payload, and whether
the call appends (`true`) or fully overwrites (`false`). -/
structure WriteEvent where
  dest : String
  payload : List AnalysisRecord
  appendMode : Bool
deriving DecidableEq, Repr

/-- The post-pass of `batch_analysis` (both variants): when any results
exist, one full overwrite of the batch destination with the
confidence-sorted set, then — when the buy subset is non-empty — one
overwrite of the selected destination with it. -/
def batchFinalWrites (batchDest selectedDest : String)
    (results : List AnalysisRecord) : List WriteEvent :=
  if results.isEmpty then []
  else
    { dest := batchDest, payload := sortByConfidence results, appendMode := false }
      :: (if (buySelection results).isEmpty then []
          else [{ dest := selectedDest, payload := buySelection results, appendMode := false }])

/-- Modelled from the spec and `hashlib`: the MD5 digest itself is an
external library call (not code of this repository), so it enters the
embedding as an opaque parameter `md5hex` giving the integer value of the
hex digest of a code. `fallbackFactor` is then the source expression
`int(hashlib.md5(code.encode()).hexdigest(), 16) % 1000 / 100.0`. -/
def fallbackFactor (md5hex : String → ℕ) (code : String) : ℚ :=
  ((md5hex code % 1000 : ℕ) : ℚ) / 100

/-- Python-dict membership for the association-list model. -/
def dictContains (d : List (String × ℚ)) (k : String) : Bool :=
  d.any fun p => p.1 = k

/-- Python-dict lookup (keys are unique in the model's use). -/
def dictGet (d : List (String × ℚ)) (k : String) : Option ℚ :=
  (d.find? fun p => p.1 = k).map Prod.snd

/-- Python `dict[k] = v`: overwrite in place, or append a new key. -/
def dictInsert (d : List (String × ℚ)) (k : String) (v : ℚ) : List (String × ℚ) :=
  if dictContains d k then d.map (fun p => if p.1 = k then (k, v) else p)
  else d ++ [(k, v)]

/-- The dictionary the factor query populates from the returned rows
(`result_dict[row.code] = row.factor_158` in row order). -/
def dbDict (dbRows : List (String × ℚ)) : List (String × ℚ) :=
  dbRows.foldl (fun d p => dictInsert d p.1 p.2) []

/-- `Database.get_factor_158`: the rows the store returned (possibly none
at all, e.g. on a query error) populate the dictionary first; every
requested code still absent then receives the hash-seeded fallback. -/
def get_factor_158 (md5hex : String → ℕ) (dbRows : List (String × ℚ))
    (stock_codes : List String) : List (String × ℚ) :=
  stock_codes.foldl
    (fun d code =>
      if dictContains d code then d
      else dictInsert d code (fallbackFactor md5hex code))
    (dbDict dbRows)

/-! ### Helper lemmas -/

/-- `round2` is monotone (it is `⌊100*x + 1/2⌋ / 100`). -/
theorem round2_mono {x y : ℚ} (h : x ≤ y) : round2 x ≤ round2 y := by
  unfold round2
  have hz : round (x * 100) ≤ round (y * 100) := by
    rw [round_eq, round_eq]
    exact Int.floor_le_floor (by linarith)
  have hq : ((round (x * 100) : ℤ) : ℚ) ≤ ((round (y * 100) : ℤ) : ℚ) := by exact_mod_cast hz
  linarith

/-- `round2` fixes integers scaled within two decimals; in particular 0. -/
theorem round2_zero : round2 0 = 0 := by norm_num [round2]

/-- `round2 100 = 100`. -/
theorem round2_hundred : round2 100 = 100 := by norm_num [round2]

/-- The rounding error of `round2` is at most half a cent. -/
theorem abs_round2_sub (x : ℚ) : |round2 x - x| ≤ 1 / 200 := by
  unfold round2
  have h := abs_sub_round (x * 100)
  have e : ((round (x * 100) : ℤ) : ℚ) / 100 - x = ((round (x * 100) : ℤ) - x * 100) / 100 := by
    ring
  rw [e, abs_div, abs_of_pos (show (0:ℚ) < 100 by norm_num), abs_sub_comm]
  linarith

/-- Every element produced by a `zipWith` satisfies any property all
images of the combinator satisfy. -/
theorem zipWith_forall_mem {α β γ : Type} {f : α → β → γ} {p : γ → Prop}
    (hp : ∀ a b, p (f a b)) :
    ∀ (as : List α) (bs : List β), ∀ x ∈ List.zipWith f as bs, p x := by
  intro as
  induction as with
  | nil => intro bs x hx; simp at hx
  | cons a as ih =>
    intro bs x hx
    cases bs with
    | nil => simp at hx
    | cons b bs =>
      simp only [List.zipWith_cons_cons, List.mem_cons] at hx
      rcases hx with rfl | hx
      · exact hp a b
      · exact ih bs x hx

/-- Elements of the gain column are non-negative. -/
theorem gainsNF_nonneg (cs : List ℚ) : ∀ x ∈ gainsNF cs, 0 ≤ x := by
  intro x hx
  unfold gainsNF at hx
  split at hx
  · simp at hx
  · rcases List.mem_append.mp hx with h | h
    · exact zipWith_forall_mem (fun a b => le_max_right _ _) _ _ x h
    · simp only [List.mem_singleton] at h; simp [h]

/-- Elements of the loss column are non-negative. -/
theorem lossesNF_nonneg (cs : List ℚ) : ∀ x ∈ lossesNF cs, 0 ≤ x := by
  intro x hx
  unfold lossesNF at hx
  split at hx
  · simp at hx
  · rcases List.mem_append.mp hx with h | h
    · exact zipWith_forall_mem (fun a b => le_max_right _ _) _ _ x h
    · simp only [List.mem_singleton] at h; simp [h]

/-- A fully concrete snapshot value used by witnesses. -/
def sampleIndicators : Indicators :=
  { ma5 := 10, ma10 := 10, ma20 := 10, ma60 := 10, vma5 := 1000, vma10 := 1000,
    rsi := 50, macd := 0, macd_signal := 0, macd_hist := 0,
    kdj_k := 50, kdj_d := 50, kdj_j := 50,
    is_above_ma5 := some true, is_above_ma10 := some true,
    is_above_ma20 := some true, is_above_ma60 := some true, volumeRate := 1 }

/-- A fully concrete record value used by witnesses. -/
def sampleRecord : AnalysisRecord :=
  { stock_code := "600000", stock_name := "样例", recommendation := "买入",
    trend := "上涨", thought_process := "示例", action := "示例",
    confidence := 8/10, alpha158 := 0 }

/-! ### C4 — insufficient data yields an empty snapshot -/

/-- C4: with fewer than 5 bars the short-horizon engine returns the empty
snapshot, and with fewer than 60 bars the long-horizon ("2560") engine
returns the empty snapshot — never a partially populated one. -/
theorem shortage_returns_empty_snapshot (hist : List Bar) :
    (hist.length < 5 → calculate_indicators hist = none) ∧
    (hist.length < 60 → calculate_indicators_2560 hist = none) := by
  constructor
  · intro h
    simp [calculate_indicators, h]
  · intro h
    simp [calculate_indicators_2560, h]

/-- Witness for C4 at the concrete empty history. -/
theorem shortage_returns_empty_snapshot_witness :
    (([] : List Bar).length < 5 ∧ calculate_indicators [] = none) ∧
    (([] : List Bar).length < 60 ∧ calculate_indicators_2560 [] = none) :=
  ⟨⟨by decide, (shortage_returns_empty_snapshot []).1 (by decide)⟩,
   ⟨by decide, (shortage_returns_empty_snapshot []).2 (by decide)⟩⟩

/-! ### C5 — the gate is pure and the factor rule is absolute -/

/-- C5: both short-horizon gates are pure functions (a fact the embedding
states as invariance under repeated application to equal inputs), and any
factor score below −0.5 forces rejection regardless of the snapshot. -/
theorem gate_rejects_low_factor (ind : Option Indicators) (indF : Option IndFlow) (f : ℚ)
    (h : f < -(1/2)) :
    is_promising ind f = false ∧ is_promising_flow indF f = false ∧
    (∀ ind' f', is_promising ind' f' = is_promising ind' f') := by
  refine ⟨?_, ?_, fun _ _ => rfl⟩
  · cases ind with
    | none => rfl
    | some s => exact if_pos h
  · cases indF with
    | none => rfl
    | some s => exact if_pos h

/-- Witness for C5 at a concrete populated snapshot and factor −1. -/
theorem gate_rejects_low_factor_witness :
    ((-1 : ℚ) < -(1/2)) ∧
    (is_promising (some sampleIndicators) (-1) = false ∧
     is_promising_flow none (-1) = false ∧
     (∀ ind' f', is_promising ind' f' = is_promising ind' f')) :=
  ⟨by with_unfolding_all decide,
   gate_rejects_low_factor (some sampleIndicators) none (-1) (by with_unfolding_all decide)⟩

/-! ### C8 — a single failed symbol is dropped, siblings survive -/

/-- The collected batch length plus the failed count is the worklist
length. -/
theorem batchCollect_length (outcomes : List (Option AnalysisRecord)) :
    (batchCollect outcomes).length + outcomes.countP (fun o => o.isNone) = outcomes.length := by
  induction outcomes with
  | nil => rfl
  | cons o rest ih =>
    cases o with
    | none => simp [batchCollect, List.countP_cons] at ih ⊢; omega
    | some r => simp [batchCollect, List.countP_cons] at ih ⊢; omega

/-- C8: in a ten-symbol batch in which exactly one pipeline raised (one
`none` outcome), the collected result set holds exactly nine records; the
collection loop is total, so the orchestrator itself completes. -/
theorem batch_tolerates_single_failure (outcomes : List (Option AnalysisRecord))
    (hlen : outcomes.length = 10)
    (hfail : outcomes.countP (fun o => o.isNone) = 1) :
    (batchCollect outcomes).length = 9 := by
  have := batchCollect_length outcomes
  omega

/-- A concrete ten-symbol worklist outcome with exactly one failure. -/
def sampleOutcomes : List (Option AnalysisRecord) :=
  List.replicate 9 (some sampleRecord) ++ [none]

/-- Witness for C8 on a concrete worklist of ten outcomes with one
failure. -/
theorem batch_tolerates_single_failure_witness :
    (sampleOutcomes.length = 10 ∧
     sampleOutcomes.countP (fun o => o.isNone) = 1) ∧
    (batchCollect sampleOutcomes).length = 9 :=
  ⟨⟨by decide, by decide⟩,
   batch_tolerates_single_failure _ (by decide) (by decide)⟩

/-! ### C1 — a gate reject yields the deterministic default record -/

/-- C1: for both per-symbol pipelines, a known symbol whose gate rejects
yields exactly the deterministic default record (watch recommendation,
confidence 0.1, non-empty explanatory note) with the expensive
collaborator flag false; and whenever the collaborator succeeds when
consulted, a known symbol yields a record, gated or not. -/
theorem gate_reject_default_record :
    (∀ (env : PipelineEnv) (name : String), env.stockInfo = some name →
      is_promising (calculate_indicators env.history) (resolvedFactor env) = false →
      analysis_stock env = (some (gateDefaultRecord env.code name (resolvedFactor env)), false) ∧
      (gateDefaultRecord env.code name (resolvedFactor env)).recommendation = "观望" ∧
      (gateDefaultRecord env.code name (resolvedFactor env)).confidence = 1/10 ∧
      (gateDefaultRecord env.code name (resolvedFactor env)).thought_process ≠ "") ∧
    (∀ (env : PipelineEnv) (name : String) (s : Ind2560), env.stockInfo = some name →
      calculate_indicators_2560 env.history = some s →
      is_promising_2560 (some s) = false →
      run2560 env = (some (gateDefaultRecord2560 env.code name s), false) ∧
      (gateDefaultRecord2560 env.code name s).recommendation = "观望" ∧
      (gateDefaultRecord2560 env.code name s).confidence = 1/10 ∧
      (gateDefaultRecord2560 env.code name s).thought_process ≠ "") ∧
    (∀ (env : PipelineEnv) (name : String), env.stockInfo = some name →
      env.llmResult.isSome →
      ∃ r, (analysis_stock env).1 = some r) := by
  refine ⟨?_, ?_, ?_⟩
  · intro env name hinfo hgate
    refine ⟨?_, rfl, rfl, by simp only [gateDefaultRecord]; decide⟩
    unfold analysis_stock
    rw [hinfo]
    simp only [hgate, Bool.false_eq_true, if_false]
  · intro env name s hinfo hcalc hgate
    refine ⟨?_, rfl, rfl, ?_⟩
    · unfold run2560
      rw [hinfo, hcalc]
      simp only [hgate, Bool.false_eq_true, if_false]
    · intro h
      have hl := congrArg String.length h
      simp only [gateDefaultRecord2560, String.length_append] at hl
      have h1 : ("。" : String).length = 1 := rfl
      have h0 : ("" : String).length = 0 := rfl
      rw [h1, h0] at hl
      omega
  · intro env name hinfo hllm
    cases hgate : is_promising (calculate_indicators env.history) (resolvedFactor env) with
    | true =>
      match hr : env.llmResult with
      | some r =>
        refine ⟨{ r with
          stock_code := env.code
          stock_name := name
          alpha158 := resolvedFactor env }, ?_⟩
        simp [analysis_stock, hinfo, hr, hgate]
      | none => rw [hr] at hllm; simp at hllm
    | false =>
      exact ⟨gateDefaultRecord env.code name (resolvedFactor env),
             by simp [analysis_stock, hinfo, hgate]⟩

/-- A concrete gate-rejecting environment for the short-horizon pipeline
(no history, so the indicator dictionary is empty and the gate rejects). -/
def sampleRejectEnv : PipelineEnv :=
  { code := "600001", stockInfo := some "样例一", history := [],
    factorEnabled := false, factor158 := 0, llmResult := some sampleRecord }

/-- Helper: `round2` fixes integers. -/
theorem round2_int (n : ℤ) : round2 ((n : ℚ)) = n := by
  rw [round2]
  have h : ((n : ℚ)) * 100 = ((n * 100 : ℤ) : ℚ) := by push_cast; ring
  rw [h, round_intCast]
  push_cast
  field_simp

/-- Helper: `round0` fixes integers. -/
theorem round0_int (n : ℤ) : round0 ((n : ℚ)) = n := by
  rw [round0, round_intCast]

/-- A concrete 63-bar history whose 60-day average has a falling 3-bar
trend (the three oldest bars are higher), so the 2560 gate rejects. -/
def hist2560Reject : List Bar :=
  List.replicate 60 ⟨10, 1, 10, 10⟩ ++ List.replicate 3 ⟨20, 1, 20, 20⟩

/-- The snapshot `calculate_indicators_2560` produces on
`hist2560Reject`. -/
def snap2560Reject : Ind2560 :=
  { ma25 := 10, ma60 := 10, ma25_trend := "走平", ma60_trend := "向下",
    is_above_ma25 := some false, is_above_ma60 := some false,
    vma5 := 1, volumeRate := 1, current_price := 10 }

/-- The long-horizon engine, evaluated on the concrete rejecting
history. -/
theorem calc2560_on_reject :
    calculate_indicators_2560 hist2560Reject = some snap2560Reject := by
  have hcs : closesNF hist2560Reject = List.replicate 60 (10:ℚ) ++ List.replicate 3 20 := by
    simp [closesNF, hist2560Reject]
  have hvs : volumesNF hist2560Reject = List.replicate 60 (1:ℚ) ++ List.replicate 3 1 := by
    simp [volumesNF, hist2560Reject]
  have m25 : meanTake 25 (closesNF hist2560Reject) = some 10 := by
    rw [hcs, meanTake, if_pos (by simp)]
    rw [List.take_append_of_le_length (by simp), List.take_replicate]
    norm_num [List.sum_replicate, nsmul_eq_mul]
  have m60 : meanTake 60 (closesNF hist2560Reject) = some 10 := by
    rw [hcs, meanTake, if_pos (by simp)]
    rw [List.take_append_of_le_length (by simp), List.take_replicate]
    norm_num [List.sum_replicate, nsmul_eq_mul]
  have hdrop : (closesNF hist2560Reject).drop 3 =
      List.replicate 57 (10:ℚ) ++ List.replicate 3 20 := by
    rw [hcs, List.drop_append_of_le_length (by simp), List.drop_replicate]
  have m25d : meanTake 25 ((closesNF hist2560Reject).drop 3) = some 10 := by
    rw [hdrop, meanTake, if_pos (by simp)]
    rw [List.take_append_of_le_length (by simp), List.take_replicate]
    norm_num [List.sum_replicate, nsmul_eq_mul]
  have m60d : meanTake 60 ((closesNF hist2560Reject).drop 3) = some (21/2) := by
    rw [hdrop, meanTake, if_pos (by simp)]
    rw [List.take_append_eq_append_take, List.take_replicate, List.take_replicate]
    norm_num [List.sum_append, List.sum_replicate, nsmul_eq_mul]
  have c25 : ma25Change (closesNF hist2560Reject) = some 0 := by
    rw [ma25Change, m25, m25d]; norm_num
  have c60 : ma60Change (closesNF hist2560Reject) = some (-(1/2)) := by
    rw [ma60Change, m60, m60d]; norm_num
  have mv5 : meanTake 5 (volumesNF hist2560Reject) = some 1 := by
    rw [hvs, meanTake, if_pos (by simp)]
    rw [List.take_append_of_le_length (by simp), List.take_replicate]
    norm_num [List.sum_replicate, nsmul_eq_mul]
  have hclose : latestClose hist2560Reject = 10 := by
    rw [hist2560Reject, List.replicate_succ]
    simp [latestClose, closesNF]
  have hvol : latestVolume hist2560Reject = 1 := by
    rw [hist2560Reject, List.replicate_succ]
    simp [latestVolume, volumesNF]
  have hr10 : round2 (10 : ℚ) = 10 := by
    have := round2_int 10; norm_num at this; exact this
  have hr1 : round2 (1 : ℚ) = 1 := by
    have := round2_int 1; norm_num at this; exact this
  have hr0v : round0 (1 : ℚ) = 1 := by
    have := round0_int 1; norm_num at this; exact this
  rw [calculate_indicators_2560, if_neg (by simp [hist2560Reject])]
  simp only [m25, m60, c25, c60, mv5, hclose, hvol, Option.elim, Option.map, trendLabel]
  rw [snap2560Reject]
  norm_num [hr10, hr1, hr0v]

/-- A concrete environment for the 2560 pipeline over `hist2560Reject`. -/
def sampleRejectEnv2560 : PipelineEnv :=
  { code := "600002", stockInfo := some "样例二", history := hist2560Reject,
    factorEnabled := false, factor158 := 0, llmResult := some sampleRecord }

set_option maxRecDepth 4000 in
/-- Witness for C1: both gate-reject branches and the gated-or-not record
existence, each at a fully concrete environment. -/
theorem gate_reject_default_record_witness :
    (sampleRejectEnv.stockInfo = some "样例一" ∧
     is_promising (calculate_indicators sampleRejectEnv.history)
       (resolvedFactor sampleRejectEnv) = false ∧
     analysis_stock sampleRejectEnv =
       (some (gateDefaultRecord sampleRejectEnv.code "样例一"
         (resolvedFactor sampleRejectEnv)), false)) ∧
    (calculate_indicators_2560 sampleRejectEnv2560.history = some snap2560Reject ∧
     is_promising_2560 (some snap2560Reject) = false ∧
     run2560 sampleRejectEnv2560 =
       (some (gateDefaultRecord2560 sampleRejectEnv2560.code "样例二" snap2560Reject), false)) ∧
    (∃ r, (analysis_stock sampleRejectEnv).1 = some r) := by
  have h2560 : calculate_indicators_2560 sampleRejectEnv2560.history = some snap2560Reject :=
    calc2560_on_reject
  have hg : is_promising_2560 (some snap2560Reject) = false := by with_unfolding_all decide
  refine ⟨⟨rfl, by with_unfolding_all decide, ?_⟩, ⟨h2560, hg, ?_⟩, ?_⟩
  · exact ((gate_reject_default_record.1 sampleRejectEnv "样例一" rfl
      (by with_unfolding_all decide)).1)
  · exact ((gate_reject_default_record.2.1 sampleRejectEnv2560 "样例二" snap2560Reject rfl
      h2560 hg).1)
  · exact gate_reject_default_record.2.2 sampleRejectEnv "样例一" rfl (by with_unfolding_all decide)

/-! ### C6 — the long-horizon gate rejects exactly on its three rules -/

/-- Distinct trend labels used below. -/
theorem trend_labels_ne :
    ("走平" : String) ≠ "向下" ∧ ("向上" : String) ≠ "向下" := by
  constructor <;> decide

/-- C6: on any snapshot the 2560 engine actually produced, the gate
rejects exactly when the MA60 trend is down, or the price is more than
10% below a positive MA60, or both trends are down; and a trend label is
"down" exactly when the corresponding 3-bar delta of the moving average
exists and is negative. -/
theorem gate2560_reject_characterization (hist : List Bar) (s : Ind2560)
    (hcalc : calculate_indicators_2560 hist = some s) :
    (is_promising_2560 (some s) = false ↔
      (s.ma60_trend = "向下" ∨
       (0 < s.ma60 ∧ s.current_price < s.ma60 * (9/10)) ∨
       (s.ma25_trend = "向下" ∧ s.ma60_trend = "向下"))) ∧
    (s.ma60_trend = "向下" ↔ ∃ d, ma60Change (closesNF hist) = some d ∧ d < 0) ∧
    (s.ma25_trend = "向下" ↔ ∃ d, ma25Change (closesNF hist) = some d ∧ d < 0) := by
  have label_iff : ∀ o : Option ℚ,
      (trendLabel o = "向下" ↔ ∃ d, o = some d ∧ d < 0) := by
    intro o
    cases o with
    | none =>
      simp only [trendLabel]
      constructor
      · intro h; exact absurd h.symm trend_labels_ne.1.symm
      · rintro ⟨d, hd, -⟩; cases hd
    | some d =>
      simp only [trendLabel]
      by_cases h1 : 0 < d
      · rw [if_pos h1]
        constructor
        · intro h; exact absurd h.symm trend_labels_ne.2.symm
        · rintro ⟨d', hd', hlt⟩
          injection hd' with h'
          subst h'
          exact absurd h1 (by linarith)
      · rw [if_neg h1]
        by_cases h2 : d < 0
        · rw [if_pos h2]
          exact ⟨fun _ => ⟨d, rfl, h2⟩, fun _ => rfl⟩
        · rw [if_neg h2]
          constructor
          · intro h; exact absurd h.symm trend_labels_ne.1.symm
          · rintro ⟨d', hd', hlt⟩
            injection hd' with h'
            subst h'
            exact absurd hlt h2
  rw [calculate_indicators_2560] at hcalc
  by_cases hlen : hist.length < 60
  · rw [if_pos hlen] at hcalc; cases hcalc
  · rw [if_neg hlen] at hcalc
    injection hcalc with h
    subst h
    refine ⟨?_, label_iff _, label_iff _⟩
    by_cases h1 : trendLabel (ma60Change (closesNF hist)) = "向下"
    · simp [is_promising_2560, h1]
    · by_cases h2 : 0 < (meanTake 60 (closesNF hist)).elim 0 round2 ∧
          round2 (latestClose hist) < (meanTake 60 (closesNF hist)).elim 0 round2 * (9/10)
      · simp [is_promising_2560, h1, h2]
      · simp [is_promising_2560, h1, h2]

/-- Witness for C6 at the concrete rejecting history and its computed
snapshot. -/
theorem gate2560_reject_characterization_witness :
    (is_promising_2560 (some snap2560Reject) = false ↔
      (snap2560Reject.ma60_trend = "向下" ∨
       (0 < snap2560Reject.ma60 ∧
        snap2560Reject.current_price < snap2560Reject.ma60 * (9/10)) ∨
       (snap2560Reject.ma25_trend = "向下" ∧ snap2560Reject.ma60_trend = "向下"))) ∧
    (snap2560Reject.ma60_trend = "向下" ↔
      ∃ d, ma60Change (closesNF hist2560Reject) = some d ∧ d < 0) ∧
    (snap2560Reject.ma25_trend = "向下" ↔
      ∃ d, ma25Change (closesNF hist2560Reject) = some d ∧ d < 0) :=
  gate2560_reject_characterization hist2560Reject snap2560Reject calc2560_on_reject

/-! ### C10 — the factor map is total and its fallback is benign -/

/-- Membership in the association-list dictionary is equivalent to a
successful lookup. -/
theorem dictContains_iff_isSome (d : List (String × ℚ)) (k : String) :
    dictContains d k = true ↔ (dictGet d k).isSome := by
  unfold dictContains dictGet
  induction d with
  | nil => simp
  | cons p rest ih =>
    by_cases hp : p.1 = k
    · simp [List.find?_cons, hp]
    · simp only [List.any_cons, List.find?_cons, hp, decide_eq_true_eq]
      simp only [decide_eq_true_eq] at ih
      simp [hp, ih]

/-- Appending a fresh key does not disturb an existing binding. -/
theorem dictGet_append_single {d : List (String × ℚ)} {j : String} {v : ℚ}
    (h : dictGet d j = some v) (k : String) (w : ℚ) :
    dictGet (d ++ [(k, w)]) j = some v := by
  unfold dictGet at h ⊢
  rw [List.find?_append]
  rcases hf : List.find? (fun p => p.1 = j) d with - | q
  · rw [hf] at h; cases h
  · rw [hf] at h
    simp [h, hf]

/-- Appending a different key cannot create a binding. -/
theorem dictGet_append_single_ne {d : List (String × ℚ)} {j : String}
    (h : dictGet d j = none) {k : String} (hk : k ≠ j) (w : ℚ) :
    dictGet (d ++ [(k, w)]) j = none := by
  unfold dictGet at h ⊢
  rw [List.find?_append]
  rcases hf : List.find? (fun p => p.1 = j) d with - | q
  · simp [hf, hk]
  · rw [hf] at h; cases h

/-- Inserting a key absent from the dictionary binds it. -/
theorem dictGet_insert_self {d : List (String × ℚ)} {k : String}
    (h : dictContains d k = false) (v : ℚ) :
    dictGet (dictInsert d k v) k = some v := by
  unfold dictInsert
  rw [h]
  simp only [Bool.false_eq_true, if_false]
  unfold dictGet
  rw [List.find?_append]
  have hnone : List.find? (fun p => p.1 = k) d = none := by
    rcases hf : List.find? (fun p => p.1 = k) d with - | q
    · exact hf
    · have := List.find?_some hf
      have hmem := List.mem_of_find?_eq_some hf
      simp only [decide_eq_true_eq] at this
      have : dictContains d k = true := by
        unfold dictContains
        exact List.any_eq_true.mpr ⟨q, hmem, by simp [this]⟩
      rw [this] at h; cases h
  simp [hnone]

/-- When the key is absent, insertion is an append. -/
theorem dictInsert_of_not_contains {d : List (String × ℚ)} {k : String}
    (h : dictContains d k = false) (v : ℚ) :
    dictInsert d k v = d ++ [(k, v)] := by
  unfold dictInsert
  rw [h]
  simp

/-- The fallback-filling fold preserves every existing binding. -/
theorem factorFold_preserve (md5hex : String → ℕ) :
    ∀ (codes : List String) (d : List (String × ℚ)) (j : String) (v : ℚ),
    dictGet d j = some v →
    dictGet (codes.foldl
      (fun d code =>
        if dictContains d code then d
        else dictInsert d code (fallbackFactor md5hex code)) d) j = some v := by
  intro codes
  induction codes with
  | nil => intro d j v h; exact h
  | cons c rest ih =>
    intro d j v h
    rw [List.foldl_cons]
    by_cases hc : dictContains d c
    · rw [if_pos hc]; exact ih d j v h
    · rw [if_neg hc, dictInsert_of_not_contains (eq_false_of_ne_true hc) _]
      exact ih _ j v (dictGet_append_single h c _)

/-- The fallback-filling fold binds every requested code, and a code the
store did not supply gets exactly the hash fallback. -/
theorem factorFold_total (md5hex : String → ℕ) :
    ∀ (codes : List String) (d : List (String × ℚ)) (code : String), code ∈ codes →
    ∃ v, dictGet (codes.foldl
        (fun d code =>
          if dictContains d code then d
          else dictInsert d code (fallbackFactor md5hex code)) d) code = some v ∧
      (dictGet d code = none → v = fallbackFactor md5hex code) := by
  intro codes
  induction codes with
  | nil => intro d code h; cases h
  | cons c rest ih =>
    intro d code hmem
    rw [List.foldl_cons]
    by_cases hceq : code = c
    · subst hceq
      by_cases hc : dictContains d code
      · obtain ⟨v0, hv0⟩ := Option.isSome_iff_exists.mp ((dictContains_iff_isSome d code).mp hc)
        rw [if_pos hc]
        refine ⟨v0, factorFold_preserve md5hex rest d code v0 hv0, ?_⟩
        intro hnone; rw [hnone] at hv0; cases hv0
      · have hc' : dictContains d code = false := eq_false_of_ne_true hc
        rw [if_neg hc, dictInsert_of_not_contains hc' _]
        have hbind : dictGet (d ++ [(code, fallbackFactor md5hex code)]) code =
            some (fallbackFactor md5hex code) := by
          have := dictGet_insert_self hc' (fallbackFactor md5hex code)
          rwa [dictInsert_of_not_contains hc' _] at this
        exact ⟨fallbackFactor md5hex code,
          factorFold_preserve md5hex rest _ code _ hbind, fun _ => rfl⟩
    · have hmem' : code ∈ rest := by
        rcases List.mem_cons.mp hmem with h | h
        · exact absurd h hceq
        · exact h
      obtain ⟨v, hv, himp⟩ := ih _ code hmem'
      refine ⟨v, hv, ?_⟩
      intro hnone
      apply himp
      by_cases hc : dictContains d c
      · rwa [if_pos hc]
      · rw [if_neg hc, dictInsert_of_not_contains (eq_false_of_ne_true hc) _]
        exact dictGet_append_single_ne hnone (fun h => hceq h.symm) _

/-- C10: `get_factor_158` binds every requested code; a code the store
did not return receives the deterministic MD5 fallback, which lies in
[0, 9.99], is never negative, and therefore can never trip the gate's
`factor_score < -0.5` rule — the gate decides exactly as it would with a
neutral factor of 0. -/
theorem factor_map_total_and_fallback_benign (md5hex : String → ℕ)
    (dbRows : List (String × ℚ)) (codes : List String) (code : String)
    (hmem : code ∈ codes) :
    ∃ v, dictGet (get_factor_158 md5hex dbRows codes) code = some v ∧
      (dictGet (dbDict dbRows) code = none →
        v = fallbackFactor md5hex code ∧ 0 ≤ v ∧ v ≤ 999/100 ∧
        ∀ ind, is_promising ind v = is_promising ind 0) := by
  obtain ⟨v, hv, himp⟩ := factorFold_total md5hex codes (dbDict dbRows) code hmem
  refine ⟨v, hv, ?_⟩
  intro hnone
  have hfb := himp hnone
  subst hfb
  have h0 : (0:ℚ) ≤ fallbackFactor md5hex code := by
    unfold fallbackFactor
    positivity
  refine ⟨rfl, h0, ?_, ?_⟩
  · unfold fallbackFactor
    have hle : (md5hex code % 1000 : ℕ) ≤ 999 := by
      have := Nat.mod_lt (md5hex code) (show 0 < 1000 by norm_num)
      omega
    have : ((md5hex code % 1000 : ℕ) : ℚ) ≤ 999 := by exact_mod_cast hle
    linarith
  · intro ind
    cases ind with
    | none => rfl
    | some s =>
      unfold is_promising
      dsimp only
      rw [if_neg (show ¬((0:ℚ) < -(1/2)) by norm_num),
        if_neg (show ¬(fallbackFactor md5hex code < -(1/2)) by linarith)]

/-- Witness for C10 at a concrete hash function, empty store and a
singleton request list. -/
theorem factor_map_total_and_fallback_benign_witness :
    ("600519" ∈ ["600519"]) ∧
    ∃ v, dictGet (get_factor_158 (fun _ => 158) [] ["600519"]) "600519" = some v ∧
      (dictGet (dbDict []) "600519" = none →
        v = fallbackFactor (fun _ => 158) "600519" ∧ 0 ≤ v ∧ v ≤ 999/100 ∧
        ∀ ind, is_promising ind v = is_promising ind 0) :=
  ⟨by simp,
   factor_map_total_and_fallback_benign (fun _ => 158) [] ["600519"] "600519" (by simp)⟩

/-! ### C7 — stable confidence ranking and the buy selection -/

/-- The comparator used by the ranking pass is transitive. -/
theorem confDesc_trans : ∀ a b c : AnalysisRecord,
    decide (b.confidence ≤ a.confidence) = true →
    decide (c.confidence ≤ b.confidence) = true →
    decide (c.confidence ≤ a.confidence) = true := by
  intro a b c hab hbc
  simp only [decide_eq_true_eq] at *
  exact le_trans hbc hab

/-- The comparator used by the ranking pass is total. -/
theorem confDesc_total : ∀ a b : AnalysisRecord,
    (decide (b.confidence ≤ a.confidence) || decide (a.confidence ≤ b.confidence)) = true := by
  intro a b
  rcases le_total b.confidence a.confidence with h | h <;> simp [h]

/-- The sorted output is a permutation of the input. -/
theorem sortByConfidence_perm (l : List AnalysisRecord) :
    (sortByConfidence l).Perm l :=
  List.mergeSort_perm l _

/-- C7: the post-pass stably sorts by confidence descending (the sorted
set is a permutation of the results, is pairwise descending, and records
of any fixed confidence keep their original completion order), the buy
selection is exactly the substring-matched records, and the final writes
are a single full overwrite of the batch destination followed — when the
selection is non-empty — by a single full overwrite of the selected
destination. -/
theorem ranking_and_buy_selection (l : List AnalysisRecord) (bd sd : String) :
    (sortByConfidence l).Perm l ∧
    List.Pairwise (fun a b => b.confidence ≤ a.confidence) (sortByConfidence l) ∧
    (∀ c : ℚ, (sortByConfidence l).filter (fun r => decide (r.confidence = c)) =
      l.filter (fun r => decide (r.confidence = c))) ∧
    (∀ r, r ∈ buySelection l ↔ r ∈ l ∧ isBuyRecord r = true) ∧
    (l ≠ [] → batchFinalWrites bd sd l =
      { dest := bd, payload := sortByConfidence l, appendMode := false } ::
        (if (buySelection l).isEmpty then []
         else [{ dest := sd, payload := buySelection l, appendMode := false }])) := by
  refine ⟨sortByConfidence_perm l, ?_, ?_, ?_, ?_⟩
  · have h := List.sorted_mergeSort confDesc_trans confDesc_total l
    exact h.imp (fun hab => of_decide_eq_true hab)
  · intro c
    have hperm : ((sortByConfidence l).filter (fun r => decide (r.confidence = c))).Perm
        (l.filter (fun r => decide (r.confidence = c))) :=
      (sortByConfidence_perm l).filter _
    have hsub : List.Sublist (l.filter (fun r => decide (r.confidence = c)))
        (sortByConfidence l) := by
      apply List.sublist_mergeSort confDesc_trans confDesc_total
      · refine List.pairwise_of_forall_mem_list ?_
        intro a ha b hb
        have ha' : a.confidence = c := by simpa using List.of_mem_filter ha
        have hb' : b.confidence = c := by simpa using List.of_mem_filter hb
        simp [ha', hb']
      · exact List.filter_sublist l
    have hsub2 : List.Sublist (l.filter (fun r => decide (r.confidence = c)))
        ((sortByConfidence l).filter (fun r => decide (r.confidence = c))) := by
      have := hsub.filter (fun r => decide (r.confidence = c))
      rwa [List.filter_filter, (by
        funext r
        rcases Bool.eq_false_or_eq_true (decide (r.confidence = c)) with h | h <;> simp [h] :
          (fun r : AnalysisRecord => decide (r.confidence = c) && decide (r.confidence = c)) =
          fun r => decide (r.confidence = c))] at this
    exact (hsub2.eq_of_length (hperm.length_eq.symm)).symm
  · intro r
    unfold buySelection
    rw [List.mem_filter]
    constructor
    · rintro ⟨hm, hb⟩
      exact ⟨(sortByConfidence_perm l).mem_iff.mp hm, hb⟩
    · rintro ⟨hm, hb⟩
      exact ⟨(sortByConfidence_perm l).mem_iff.mpr hm, hb⟩
  · intro hne
    unfold batchFinalWrites
    rw [if_neg (by simpa using hne)]

/-- Witness for C7: the final-writes implication discharged at a concrete
singleton result set. -/
theorem ranking_and_buy_selection_witness :
    ([sampleRecord] ≠ []) ∧
    batchFinalWrites "batch" "selected" [sampleRecord] =
      { dest := "batch", payload := sortByConfidence [sampleRecord], appendMode := false } ::
        (if (buySelection [sampleRecord]).isEmpty then []
         else [{ dest := "selected", payload := buySelection [sampleRecord],
                 appendMode := false }]) :=
  ⟨by simp, (ranking_and_buy_selection [sampleRecord] "batch" "selected").2.2.2.2 (by simp)⟩

/-! ### C3 — RSI range and the zero-average-loss cases -/

/-- A mean of a non-negative series is non-negative. -/
theorem meanTake_nonneg {w : ℕ} {xs : List ℚ} {g : ℚ}
    (hx : ∀ x ∈ xs, 0 ≤ x) (h : meanTake w xs = some g) : 0 ≤ g := by
  unfold meanTake at h
  split at h
  · injection h with h
    subst h
    apply div_nonneg _ (by positivity)
    exact List.sum_nonneg fun x hx' => hx x (List.mem_of_mem_take hx')
  · cases h

/-- Every value `rsiLast` actually produces is in [0, 100] already
before rounding. -/
theorem rsiLast_range {cs : List ℚ} {v : ℚ} (h : rsiLast cs = some v) :
    0 ≤ v ∧ v ≤ 100 := by
  rw [rsiLast] at h
  rcases hg : gainMean14 cs with - | g <;> rw [hg] at h
  · cases h
  rcases hl : lossMean14 cs with - | l <;> rw [hl] at h
  · cases h
  dsimp only at h
  have hg0 : 0 ≤ g := meanTake_nonneg (gainsNF_nonneg cs) hg
  have hl0 : 0 ≤ l := meanTake_nonneg (lossesNF_nonneg cs) hl
  by_cases hlz : l = 0
  · rw [if_pos hlz] at h
    by_cases hgz : g = 0
    · rw [if_pos hgz] at h; cases h
    · rw [if_neg hgz] at h
      injection h with h
      subst h
      norm_num
  · rw [if_neg hlz] at h
    injection h with h
    subst h
    have hlpos : 0 < l := lt_of_le_of_ne hl0 (Ne.symm hlz)
    have hrs : 0 ≤ g / l := div_nonneg hg0 hl0
    constructor
    · have : 100 / (1 + g / l) ≤ 100 := div_le_self (by norm_num) (by linarith)
      linarith
    · have : 0 ≤ 100 / (1 + g / l) := div_nonneg (by norm_num) (by linarith)
      linarith

/-- C3 (amended): for any series of at least 14 bars the snapshot's RSI
lies in [0, 100]; it equals 50 when both the 14-bar average gain and
average loss vanish (the 0/0 NaN default), and equals 100 when the
average loss vanishes but the average gain does not (the division-by-zero
infinity case). -/
theorem rsi_range_and_zero_loss (hist : List Bar) (hlen : 14 ≤ hist.length) :
    ∃ s, calculate_indicators hist = some s ∧
      0 ≤ s.rsi ∧ s.rsi ≤ 100 ∧
      (lossMean14 (closesNF hist) = some 0 → gainMean14 (closesNF hist) = some 0 →
        s.rsi = 50) ∧
      (∀ g, lossMean14 (closesNF hist) = some 0 → gainMean14 (closesNF hist) = some g →
        g ≠ 0 → s.rsi = 100) := by
  have h5 : ¬(hist.length < 5) := by omega
  refine ⟨_, by rw [calculate_indicators, if_neg h5], ?_, ?_, ?_, ?_⟩ <;> dsimp only
  · rcases hr : rsiLast (closesNF hist) with - | v
    · norm_num
    · have := (rsiLast_range hr).1
      calc (0:ℚ) = round2 0 := by rw [round2_zero]
        _ ≤ round2 v := round2_mono this
  · rcases hr : rsiLast (closesNF hist) with - | v
    · norm_num
    · have := (rsiLast_range hr).2
      calc round2 v ≤ round2 100 := round2_mono this
        _ = 100 := round2_hundred
  · intro hl hg
    rcases hr : rsiLast (closesNF hist) with - | v
    · rfl
    · rw [rsiLast, hg, hl] at hr
      dsimp only at hr
      rw [if_pos rfl, if_pos rfl] at hr
      cases hr
  · intro g hl hg hgne
    rcases hr : rsiLast (closesNF hist) with - | v
    · rw [rsiLast, hg, hl] at hr
      dsimp only at hr
      rw [if_pos rfl, if_neg hgne] at hr
      cases hr
    · rw [rsiLast, hg, hl] at hr
      dsimp only at hr
      rw [if_pos rfl, if_neg hgne] at hr
      injection hr with hr
      cases hr
      show round2 100 = 100
      exact round2_hundred

/-- A 14-bar strictly rising price series (newest first: 14 down to 1
chronologically oldest), on which every delta is a gain. -/
def hist14 : List Bar :=
  [⟨14, 1, 14, 14⟩, ⟨13, 1, 13, 13⟩, ⟨12, 1, 12, 12⟩, ⟨11, 1, 11, 11⟩,
   ⟨10, 1, 10, 10⟩, ⟨9, 1, 9, 9⟩, ⟨8, 1, 8, 8⟩, ⟨7, 1, 7, 7⟩,
   ⟨6, 1, 6, 6⟩, ⟨5, 1, 5, 5⟩, ⟨4, 1, 4, 4⟩, ⟨3, 1, 3, 3⟩,
   ⟨2, 1, 2, 2⟩, ⟨1, 1, 1, 1⟩]

/-- Counterexample to C3 as stated: on `hist14` the 14-bar average loss
is 0, yet the snapshot RSI is 100, not 50 (pandas computes
`RS = gain/0 = inf`, so `100 - 100/(1+inf) = 100`; the 50 default fires
only in the 0/0 case). -/
theorem rsi_zero_loss_counterexample :
    14 ≤ hist14.length ∧
    lossMean14 (closesNF hist14) = some 0 ∧
    (calculate_indicators hist14).map (fun s => decide (s.rsi = 50)) = some false ∧
    (calculate_indicators hist14).map (fun s => decide (s.rsi = 100)) = some true := by
  refine ⟨by decide, by with_unfolding_all decide, by with_unfolding_all decide,
    by with_unfolding_all decide⟩

/-- A 14-bar constant price series: both average gain and loss are 0. -/
def hist14c : List Bar := List.replicate 14 ⟨7, 2, 7, 7⟩

/-- Witness for C3 (amended) at the concrete constant series. -/
theorem rsi_range_and_zero_loss_witness :
    14 ≤ hist14c.length ∧
    (∃ s, calculate_indicators hist14c = some s ∧
      0 ≤ s.rsi ∧ s.rsi ≤ 100 ∧
      (lossMean14 (closesNF hist14c) = some 0 → gainMean14 (closesNF hist14c) = some 0 →
        s.rsi = 50) ∧
      (∀ g, lossMean14 (closesNF hist14c) = some 0 → gainMean14 (closesNF hist14c) = some g →
        g ≠ 0 → s.rsi = 100)) :=
  ⟨by decide, rsi_range_and_zero_loss hist14c (by decide)⟩

/-! ### C2 — moving-average ordering on a strictly rising series -/

/-- On a pairwise-descending (newest-first) list, scaled prefix sums
compare: a shorter prefix has the larger scaled sum. -/
theorem take_sum_scaled {xs : List ℚ} (hp : xs.Pairwise (fun a b => b ≤ a))
    {m k : ℕ} (hmk : m ≤ k) (hk : k ≤ xs.length) :
    (m : ℚ) * (xs.take k).sum ≤ (k : ℚ) * (xs.take m).sum := by
  rcases eq_or_lt_of_le hmk with rfl | hlt
  · exact le_refl _
  have hmlen : m < xs.length := lt_of_lt_of_le hlt hk
  have hpall := List.pairwise_iff_getElem.mp hp
  have hA : ∀ y ∈ xs.take m, xs.get ⟨m, hmlen⟩ ≤ y := by
    intro y hy
    obtain ⟨i, hi, hiy⟩ := List.mem_iff_getElem.mp hy
    have hi' : i < m := by
      have := hi
      rw [List.length_take] at this
      omega
    have hgl : i < xs.length := by omega
    have := hpall i m hgl hmlen hi'
    rw [← hiy, List.getElem_take]
    exact this
  have hB : ∀ y ∈ (xs.take k).drop m, y ≤ xs.get ⟨m, hmlen⟩ := by
    intro y hy
    obtain ⟨j, hj, hjy⟩ := List.mem_iff_getElem.mp hy
    have hjlen : m + j < xs.length := by
      have := hj
      rw [List.length_drop, List.length_take] at this
      omega
    have hjk : m + j < k := by
      have := hj
      rw [List.length_drop, List.length_take] at this
      omega
    rw [← hjy, List.getElem_drop, List.getElem_take]
    rcases Nat.eq_zero_or_pos j with rfl | hjpos
    · apply le_of_eq
      simp [List.get_eq_getElem]
    · exact hpall m (m + j) hmlen hjlen (by omega)
  have hlm : (xs.take m).length = m := by
    rw [List.length_take]
    omega
  have hlmid : ((xs.take k).drop m).length = k - m := by
    rw [List.length_drop, List.length_take]
    omega
  have hSm : (m : ℚ) * xs.get ⟨m, hmlen⟩ ≤ (xs.take m).sum := by
    have := List.card_nsmul_le_sum (xs.take m) (xs.get ⟨m, hmlen⟩) hA
    rwa [hlm, nsmul_eq_mul] at this
  have hSmid : ((xs.take k).drop m).sum ≤ ((k - m : ℕ) : ℚ) * xs.get ⟨m, hmlen⟩ := by
    have := List.sum_le_card_nsmul ((xs.take k).drop m) (xs.get ⟨m, hmlen⟩) hB
    rwa [hlmid, nsmul_eq_mul] at this
  have hdecomp : (xs.take k).sum = (xs.take m).sum + ((xs.take k).drop m).sum := by
    conv_lhs => rw [← List.take_append_drop m (xs.take k)]
    rw [List.sum_append, List.take_take, min_eq_left hmk]
  have hcast : ((k - m : ℕ) : ℚ) = (k : ℚ) - m := Nat.cast_sub hmk
  calc (m : ℚ) * (xs.take k).sum
      = (m : ℚ) * (xs.take m).sum + (m : ℚ) * ((xs.take k).drop m).sum := by
        rw [hdecomp]; ring
    _ ≤ (m : ℚ) * (xs.take m).sum + (m : ℚ) * (((k - m : ℕ) : ℚ) * xs.get ⟨m, hmlen⟩) := by
        have := mul_le_mul_of_nonneg_left hSmid (show (0:ℚ) ≤ (m:ℚ) by positivity)
        linarith
    _ = (m : ℚ) * (xs.take m).sum + ((k - m : ℕ) : ℚ) * ((m : ℚ) * xs.get ⟨m, hmlen⟩) := by
        ring
    _ ≤ (m : ℚ) * (xs.take m).sum + ((k - m : ℕ) : ℚ) * (xs.take m).sum := by
        have := mul_le_mul_of_nonneg_left hSm (show (0:ℚ) ≤ ((k - m : ℕ) : ℚ) by positivity)
        linarith
    _ = (k : ℚ) * (xs.take m).sum := by
        rw [hcast]; ring

/-- Prefix means of a descending newest-first list grow as the window
shrinks: the `k`-bar mean is at most the `m`-bar mean for `m ≤ k`. -/
theorem meanTake_antitone {xs : List ℚ} (hp : xs.Pairwise (fun a b => b ≤ a))
    {m k : ℕ} (hm : 0 < m) (hmk : m ≤ k) (hk : k ≤ xs.length)
    {a b : ℚ} (ha : meanTake m xs = some a) (hb : meanTake k xs = some b) :
    b ≤ a := by
  rw [meanTake, if_pos (le_trans hmk hk)] at ha
  rw [meanTake, if_pos hk] at hb
  injection ha with ha
  injection hb with hb
  subst ha
  subst hb
  have hkpos : (0:ℚ) < (k:ℚ) := by exact_mod_cast lt_of_lt_of_le hm hmk
  have hmpos : (0:ℚ) < (m:ℚ) := by exact_mod_cast hm
  rw [div_le_div_iff₀ hkpos hmpos]
  have := take_sum_scaled hp hmk hk
  linarith

/-- On a strictly descending newest-first list, every mean over at least
two bars is strictly below the latest value. -/
theorem meanTake_lt_head {xs : List ℚ} (hp : xs.Pairwise (fun a b => b < a))
    {w : ℕ} (h2 : 2 ≤ w) (hw : w ≤ xs.length) {v : ℚ}
    (hv : meanTake w xs = some v) : v < xs.headD 0 := by
  rw [meanTake, if_pos hw] at hv
  injection hv with hv
  subst hv
  rcases xs with - | ⟨x0, t⟩
  · exfalso
    simp at hw
    omega
  rcases t with - | ⟨x1, t'⟩
  · exfalso
    simp at hw
    omega
  · obtain ⟨w'', rfl⟩ : ∃ w'', w = w'' + 2 := ⟨w - 2, by omega⟩
    have hx1 : x1 < x0 := (List.pairwise_cons.mp hp).1 x1 (List.mem_cons_self _ _)
    have hrest : ∀ y ∈ t'.take w'', y < x0 := by
      intro y hy
      exact (List.pairwise_cons.mp hp).1 y
        (List.mem_cons_of_mem _ (List.mem_of_mem_take hy))
    have hlen'' : (t'.take w'').length = w'' := by
      rw [List.length_take]
      simp at hw
      omega
    have hsum : (t'.take w'').sum ≤ (w'' : ℚ) * x0 := by
      have := List.sum_le_card_nsmul (t'.take w'') x0 (fun y hy => le_of_lt (hrest y hy))
      rwa [hlen'', nsmul_eq_mul] at this
    have htake : ((x0 :: x1 :: t').take (w'' + 2)).sum = x0 + x1 + (t'.take w'').sum := by
      simp [List.take_succ_cons]
      ring
    rw [htake]
    have hwpos : (0:ℚ) < ((w'' + 2 : ℕ) : ℚ) := by positivity
    rw [div_lt_iff₀ hwpos]
    have hcast : ((w'' + 2 : ℕ) : ℚ) = (w'' : ℚ) + 2 := by push_cast; ring
    rw [hcast]
    show x0 + x1 + (t'.take w'').sum < List.headD (x0 :: x1 :: t') 0 * ((w'':ℚ) + 2)
    simp only [List.headD_cons]
    nlinarith [hsum, hx1]

/-- C2 (amended): on a chronologically strictly rising close series of at
least 60 bars, the snapshot's moving averages sit in the order
MA60 ≤ MA20 ≤ MA10 ≤ MA5 (the short averages are the high ones), and all
four `is_above` flags are true. -/
theorem rising_series_ma_order (hist : List Bar) (hlen : 60 ≤ hist.length)
    (hmono : List.Chain' (fun a b : Bar => b.close < a.close) hist) :
    ∃ s, calculate_indicators hist = some s ∧
      s.ma60 ≤ s.ma20 ∧ s.ma20 ≤ s.ma10 ∧ s.ma10 ≤ s.ma5 ∧
      s.is_above_ma5 = some true ∧ s.is_above_ma10 = some true ∧
      s.is_above_ma20 = some true ∧ s.is_above_ma60 = some true := by
  have hclen : (closesNF hist).length = hist.length := List.length_map _ _
  have hchain : List.Chain' (fun a b : ℚ => b < a) (closesNF hist) :=
    (List.chain'_map Bar.close).mpr hmono
  haveI : IsTrans ℚ (fun a b : ℚ => b < a) := ⟨fun _ _ _ h1 h2 => lt_trans h2 h1⟩
  have hpairlt : (closesNF hist).Pairwise (fun a b => b < a) :=
    List.chain'_iff_pairwise.mp hchain
  have hpairle : (closesNF hist).Pairwise (fun a b => b ≤ a) :=
    hpairlt.imp le_of_lt
  have hl5 : 5 ≤ (closesNF hist).length := by omega
  have hl10 : 10 ≤ (closesNF hist).length := by omega
  have hl20 : 20 ≤ (closesNF hist).length := by omega
  have hl60 : 60 ≤ (closesNF hist).length := by omega
  have e5 : meanTake 5 (closesNF hist) = some (((closesNF hist).take 5).sum / 5) := by
    rw [meanTake, if_pos hl5]
    norm_num
  have e10 : meanTake 10 (closesNF hist) = some (((closesNF hist).take 10).sum / 10) := by
    rw [meanTake, if_pos hl10]
    norm_num
  have e20 : meanTake 20 (closesNF hist) = some (((closesNF hist).take 20).sum / 20) := by
    rw [meanTake, if_pos hl20]
    norm_num
  have e60 : meanTake 60 (closesNF hist) = some (((closesNF hist).take 60).sum / 60) := by
    rw [meanTake, if_pos hl60]
    norm_num
  have h2010 : ((closesNF hist).take 20).sum / 20 ≤ ((closesNF hist).take 10).sum / 10 :=
    meanTake_antitone hpairle (by norm_num) (by norm_num) hl20 e10 e20
  have h105 : ((closesNF hist).take 10).sum / 10 ≤ ((closesNF hist).take 5).sum / 5 :=
    meanTake_antitone hpairle (by norm_num) (by norm_num) hl10 e5 e10
  have h6020 : ((closesNF hist).take 60).sum / 60 ≤ ((closesNF hist).take 20).sum / 20 :=
    meanTake_antitone hpairle (by norm_num) (by norm_num) hl60 e20 e60
  have hhead : latestClose hist = (closesNF hist).headD 0 := rfl
  have hg5 : ((closesNF hist).take 5).sum / 5 < latestClose hist := by
    rw [hhead]
    exact meanTake_lt_head hpairlt (by norm_num) hl5 e5
  have hg10 : ((closesNF hist).take 10).sum / 10 < latestClose hist := by
    rw [hhead]
    exact meanTake_lt_head hpairlt (by norm_num) hl10 e10
  have hg20 : ((closesNF hist).take 20).sum / 20 < latestClose hist := by
    rw [hhead]
    exact meanTake_lt_head hpairlt (by norm_num) hl20 e20
  have hg60 : ((closesNF hist).take 60).sum / 60 < latestClose hist := by
    rw [hhead]
    exact meanTake_lt_head hpairlt (by norm_num) hl60 e60
  refine ⟨_, by rw [calculate_indicators, if_neg (by omega)], ?_, ?_, ?_, ?_, ?_, ?_, ?_⟩
    <;> dsimp only
  · rw [e60, e20]
    exact round2_mono h6020
  · rw [e20, e10]
    exact round2_mono h2010
  · rw [e10, e5]
    exact round2_mono h105
  · rw [e5]
    simp only [Option.map_some', Option.some.injEq, decide_eq_true_eq]
    exact hg5
  · rw [e10]
    simp only [Option.map_some', Option.some.injEq, decide_eq_true_eq]
    exact hg10
  · rw [e20]
    simp only [Option.map_some', Option.some.injEq, decide_eq_true_eq]
    exact hg20
  · rw [e60]
    simp only [Option.map_some', Option.some.injEq, decide_eq_true_eq]
    exact hg60

/-- A 60-bar strictly rising close series (newest first 60 … 1). -/
def hist60inc : List Bar :=
  (List.range 60).map fun i => ⟨((60 - i : ℕ) : ℚ), 1, ((60 - i : ℕ) : ℚ), ((60 - i : ℕ) : ℚ)⟩

/-- Executable check that a newest-first bar list has strictly rising
chronological closes. -/
def chainDesc : List Bar → Bool
  | [] => true
  | [_] => true
  | a :: b :: rest => decide (b.close < a.close) && chainDesc (b :: rest)

/-- The checker decides the strict-descent chain property. -/
theorem chainDesc_iff (l : List Bar) :
    chainDesc l = true ↔ List.Chain' (fun a b : Bar => b.close < a.close) l := by
  induction l with
  | nil => simp [chainDesc]
  | cons a t ih =>
    cases t with
    | nil => simp [chainDesc]
    | cons b r =>
      rw [List.chain'_cons, ← ih]
      simp [chainDesc]

/-- Counterexample to C2 as stated: on the strictly rising series the
snapshot has MA5 > MA10 (58 vs 55.5), so the claimed chain
MA5 ≤ MA10 ≤ MA20 ≤ MA60 fails at its first link. -/
theorem ma_order_counterexample :
    60 ≤ hist60inc.length ∧
    List.Chain' (fun a b : Bar => b.close < a.close) hist60inc ∧
    (calculate_indicators hist60inc).map (fun s => decide (s.ma5 ≤ s.ma10)) = some false := by
  refine ⟨by decide, (chainDesc_iff hist60inc).mp (by with_unfolding_all decide),
    by with_unfolding_all decide⟩

/-- Witness for C2 (amended) at the concrete strictly rising series. -/
theorem rising_series_ma_order_witness :
    (60 ≤ hist60inc.length ∧
     List.Chain' (fun a b : Bar => b.close < a.close) hist60inc) ∧
    (∃ s, calculate_indicators hist60inc = some s ∧
      s.ma60 ≤ s.ma20 ∧ s.ma20 ≤ s.ma10 ∧ s.ma10 ≤ s.ma5 ∧
      s.is_above_ma5 = some true ∧ s.is_above_ma10 = some true ∧
      s.is_above_ma20 = some true ∧ s.is_above_ma60 = some true) :=
  ⟨⟨by decide, (chainDesc_iff hist60inc).mp (by with_unfolding_all decide)⟩,
   rising_series_ma_order hist60inc (by decide)
     ((chainDesc_iff hist60inc).mp (by with_unfolding_all decide))⟩

/-! ### C9 — the KDJ J column and the rounded snapshot -/

/-- Elementwise characterization of the J column at defined K/D bars. -/
theorem jCombine_getElem (ks ds : List (Option ℚ)) (i : ℕ) (k d : ℚ)
    (hk : ks[i]? = some (some k)) (hd : ds[i]? = some (some d)) :
    (jCombine ks ds)[i]? = some (some (3 * k - 2 * d)) := by
  induction ks generalizing ds i with
  | nil => cases hk
  | cons a ks' ih =>
    cases ds with
    | nil => cases hd
    | cons b ds' =>
      cases i with
      | zero =>
        simp only [List.getElem?_cons_zero, Option.some.injEq] at hk hd
        subst hk
        subst hd
        simp [jCombine, jElem]
      | succ i' =>
        simp only [List.getElem?_cons_succ] at hk hd
        simpa [jCombine] using ih ds' i' hk hd

/-- The smoothing pass preserves length. -/
theorem ewmNa_length (a : ℚ) : ∀ (st : Option ℚ) (xs : List (Option ℚ)),
    (ewmNa a st xs).length = xs.length := by
  intro st xs
  induction xs generalizing st with
  | nil => simp [ewmNa]
  | cons x xs' ih =>
    cases x with
    | none => simp [ewmNa, ih]
    | some v =>
      cases st with
      | none => simp [ewmNa, ih]
      | some s => simp [ewmNa, ih]

/-- The smoothing pass is defined at exactly the bars its input is
defined at. -/
theorem ewmNa_none_iff (a : ℚ) : ∀ (xs : List (Option ℚ)) (st : Option ℚ),
    List.Forall₂ (fun x y => (x = none ↔ y = none)) xs (ewmNa a st xs) := by
  intro xs
  induction xs with
  | nil =>
    intro st
    rw [show ewmNa a st [] = [] from by simp [ewmNa]]
    exact List.Forall₂.nil
  | cons x xs' ih =>
    intro st
    cases x with
    | none =>
      rw [show ewmNa a st (none :: xs') = none :: ewmNa a st xs' from by simp [ewmNa]]
      exact List.Forall₂.cons (by simp) (ih st)
    | some v =>
      cases st with
      | none =>
        rw [show ewmNa a none (some v :: xs') = some v :: ewmNa a (some v) xs' from by
          simp [ewmNa]]
        exact List.Forall₂.cons (by simp) (ih _)
      | some s =>
        rw [show ewmNa a (some s) (some v :: xs') =
            some ((1 - a) * s + a * v) :: ewmNa a (some ((1 - a) * s + a * v)) xs' from by
          simp [ewmNa]]
        exact List.Forall₂.cons (by simp) (ih _)

/-- A `Forall₂` relation transfers to the final entries. -/
theorem forall2_getLast {R : Option ℚ → Option ℚ → Prop} :
    ∀ {xs ys : List (Option ℚ)}, List.Forall₂ R xs ys →
    xs = [] ∨ ∃ x y, xs.getLast? = some x ∧ ys.getLast? = some y ∧ R x y := by
  intro xs ys h
  induction h with
  | nil => exact Or.inl rfl
  | @cons a b xs' ys' hr htail ih =>
    right
    rcases ih with rfl | ⟨x, y, hx, hy, hxy⟩
    · have : ys' = [] := List.forall₂_nil_left_iff.mp htail
      subst this
      exact ⟨a, b, rfl, rfl, hr⟩
    · rcases xs' with - | ⟨a', t⟩
      · cases hx
      rcases ys' with - | ⟨b', u⟩
      · cases hy
      exact ⟨x, y, by rwa [List.getLast?_cons_cons], by rwa [List.getLast?_cons_cons], hxy⟩

/-- Combination of two final-entry options as the J column's final
entry. -/
def jLastCombine (ko dd : Option (Option ℚ)) : Option (Option ℚ) :=
  match ko, dd with
  | some a, some b => some (jElem a b)
  | _, _ => none

/-- The final entry of the J column from the final K and D entries, given
equal column lengths. -/
theorem jCombine_getLast : ∀ (ks ds : List (Option ℚ)), ks.length = ds.length →
    (jCombine ks ds).getLast? = jLastCombine ks.getLast? ds.getLast? := by
  intro ks
  induction ks with
  | nil =>
    intro ds h
    have : ds = [] := by
      cases ds with
      | nil => rfl
      | cons b ds' => cases h
    subst this
    simp [jCombine, jLastCombine]
  | cons a ks' ih =>
    intro ds h
    cases ds with
    | nil => cases h
    | cons b ds' =>
      have hlen : ks'.length = ds'.length := by simpa using h
      cases ks' with
      | nil =>
        cases ds' with
        | nil => simp [jCombine, jLastCombine]
        | cons c t => cases hlen
      | cons a' t =>
        cases ds' with
        | nil => cases hlen
        | cons b' u =>
          have hstep : jCombine (a :: a' :: t) (b :: b' :: u) =
              jElem a b :: jCombine (a' :: t) (b' :: u) := by
            simp [jCombine]
          have hne : jCombine (a' :: t) (b' :: u) =
              jElem a' b' :: jCombine t u := by
            simp [jCombine]
          rw [hstep, hne, List.getLast?_cons_cons, ← hne, ih (b' :: u) hlen,
            List.getLast?_cons_cons, List.getLast?_cons_cons]

/-- The rounding bound: independently rounding K, D and J keeps the
identity within three cents. -/
theorem kdj_round_bound (k d : ℚ) :
    |round2 (3 * k - 2 * d) - (3 * round2 k - 2 * round2 d)| ≤ 3 / 100 := by
  have h1 := abs_le.mp (abs_round2_sub (3 * k - 2 * d))
  have h2 := abs_le.mp (abs_round2_sub k)
  have h3 := abs_le.mp (abs_round2_sub d)
  have e : round2 (3 * k - 2 * d) - (3 * round2 k - 2 * round2 d) =
      (round2 (3 * k - 2 * d) - (3 * k - 2 * d)) - 3 * (round2 k - k) +
        2 * (round2 d - d) := by ring
  rw [e]
  apply abs_le.mpr
  constructor <;> [linarith; linarith]

/-- C9: at every bar where both K and D are defined, the J column equals
exactly 3K − 2D; and at the final-bar snapshot, where K, D and J are each
independently rounded to 2 decimals, the identity holds within 0.03. -/
theorem kdj_j_identity :
    (∀ (hs ls cs : List ℚ) (i : ℕ) (k d : ℚ),
      (kListOf hs ls cs)[i]? = some (some k) →
      (dListOf hs ls cs)[i]? = some (some d) →
      (jListOf hs ls cs)[i]? = some (some (3 * k - 2 * d))) ∧
    (∀ hist : List Bar, 5 ≤ hist.length →
      ∃ s, calculate_indicators hist = some s ∧
        |s.kdj_j - (3 * s.kdj_k - 2 * s.kdj_d)| ≤ 3 / 100) := by
  constructor
  · intro hs ls cs i k d hk hd
    exact jCombine_getElem _ _ i k d hk hd
  · intro hist hlen
    refine ⟨_, by rw [calculate_indicators, if_neg (by omega)], ?_⟩
    dsimp only
    have hlen2 : (kListOf ((highsNF hist).reverse) ((lowsNF hist).reverse)
        ((closesNF hist).reverse)).length =
        (dListOf ((highsNF hist).reverse) ((lowsNF hist).reverse)
          ((closesNF hist).reverse)).length := by
      rw [dListOf, ewmNa_length]
    have hj : (jListOf ((highsNF hist).reverse) ((lowsNF hist).reverse)
          ((closesNF hist).reverse)).getLast? =
        jLastCombine
          ((kListOf ((highsNF hist).reverse) ((lowsNF hist).reverse)
            ((closesNF hist).reverse)).getLast?)
          ((dListOf ((highsNF hist).reverse) ((lowsNF hist).reverse)
            ((closesNF hist).reverse)).getLast?) :=
      jCombine_getLast _ _ hlen2
    have F2 : List.Forall₂ (fun x y => (x = none ↔ y = none))
        (kListOf ((highsNF hist).reverse) ((lowsNF hist).reverse)
          ((closesNF hist).reverse))
        (dListOf ((highsNF hist).reverse) ((lowsNF hist).reverse)
          ((closesNF hist).reverse)) :=
      ewmNa_none_iff (1/3) _ none
    rcases forall2_getLast F2 with hnil | ⟨x, y, hx, hy, hxy⟩
    · have hknone : (kListOf ((highsNF hist).reverse) ((lowsNF hist).reverse)
          ((closesNF hist).reverse)).getLast? = none := by
        rw [hnil]; rfl
      have hdnil : (dListOf ((highsNF hist).reverse) ((lowsNF hist).reverse)
          ((closesNF hist).reverse)) = [] := by
        have := hlen2
        rw [hnil] at this
        exact List.length_eq_zero.mp this.symm
      rw [hj, hknone, hdnil]
      norm_num [jLastCombine]
    · rw [hj, hx, hy]
      cases x with
      | none =>
        have hyn : y = none := hxy.mp rfl
        subst hyn
        norm_num [jLastCombine, jElem]
      | some kv =>
        cases y with
        | none =>
          exfalso
          exact Option.noConfusion (hxy.mpr rfl)
        | some dv =>
          dsimp only [jLastCombine, jElem, Option.bind, Option.elim, id]
          exact kdj_round_bound kv dv

/-- Nine-bar constant KDJ inputs: highs 2, lows 0, closes 1, giving
RSV = K = D = 50 at the ninth bar. -/
def kdjH9 : List ℚ := List.replicate 9 2

/-- Lows for the nine-bar KDJ input. -/
def kdjL9 : List ℚ := List.replicate 9 0

/-- Closes for the nine-bar KDJ input. -/
def kdjC9 : List ℚ := List.replicate 9 1

/-- Witness for C9: the per-bar identity at the ninth bar of the concrete
series, and the snapshot bound at a concrete 14-bar history. -/
theorem kdj_j_identity_witness :
    ((kListOf kdjH9 kdjL9 kdjC9)[8]? = some (some 50) ∧
     (dListOf kdjH9 kdjL9 kdjC9)[8]? = some (some 50) ∧
     (jListOf kdjH9 kdjL9 kdjC9)[8]? = some (some (3 * 50 - 2 * 50))) ∧
    (5 ≤ hist14c.length ∧
     ∃ s, calculate_indicators hist14c = some s ∧
       |s.kdj_j - (3 * s.kdj_k - 2 * s.kdj_d)| ≤ 3 / 100) := by
  have hk : (kListOf kdjH9 kdjL9 kdjC9)[8]? = some (some 50) := by with_unfolding_all decide
  have hd : (dListOf kdjH9 kdjL9 kdjC9)[8]? = some (some 50) := by with_unfolding_all decide
  exact ⟨⟨hk, hd, kdj_j_identity.1 kdjH9 kdjL9 kdjC9 8 50 50 hk hd⟩,
    ⟨by decide, kdj_j_identity.2 hist14c (by decide)⟩⟩
